import Mathlib

/-!
Shallow embedding of `SmoothGradInterpreterV2.interpret` from
`src/interpretdl/interpreter/smooth_grad_v2.py`.

Tensors are nested lists of rationals (float32 arrays are modelled as exact
rationals).  A preprocessed input `data` has shape `(1, C, H, W)` and is
modelled as `List Tensor3`, each sample being a `Tensor3 = (channels, rows,
cols)`.  The external `predict_fn` is modelled as an explicit function
returning `Except`, so a raised exception is an `Except.error`.  Ambient
Gaussian randomness is modelled by a stream `z : Nat -> Tensor3` of
standard-normal-shaped draws: `np.random.normal(0, s, shape)` is `s * z`,
which is exact for the one consequence the code relies on (a draw with zero
std is exactly zero).
-/

namespace InterpretDL

/-- One image sample / gradient: shape (channels, rows, cols). -/
abbrev Tensor3 := List (List (List ℚ))

/-- Flatten a sample over channels and spatial positions. -/
def flatten3 (t : Tensor3) : List ℚ := t.flatten.flatten

/-- np.max over a nonempty list (0 on the empty list, never used there). -/
def listMax : List ℚ → ℚ
  | [] => 0
  | x :: xs => xs.foldl max x

/-- np.min over a nonempty list (0 on the empty list, never used there). -/
def listMin : List ℚ → ℚ
  | [] => 0
  | x :: xs => xs.foldl min x

/-- `np.max(d)` over ALL channels and spatial positions of one sample,
as in `np.max(data, axis=(1, .., ndim-1))` applied to sample `d`. -/
def maxT (t : Tensor3) : ℚ := listMax (flatten3 t)

/-- `np.min(d)` over ALL channels and spatial positions of one sample. -/
def minT (t : Tensor3) : ℚ := listMin (flatten3 t)

/-- The std interpret computes for a sample:
`stds = noise_amount * (np.max(data, axis=max_axis) - np.min(data, axis=max_axis))`
where `max_axis` is every non-batch axis, so one scalar per sample taken
over all channels and spatial positions jointly. -/
def sampleStd (noise_amount : ℚ) (x : Tensor3) : ℚ :=
  noise_amount * (maxT x - minT x)

/-- Per-channel standard deviation.  Modelled from the spec words
(`std[c] = noise_amount * (max_over_spatial(InputSample[c]) -
min_over_spatial(InputSample[c]))`), for comparison with what the code
computes; the code has no per-channel reduction. -/
def channelStd (noise_amount : ℚ) (x : Tensor3) (c : Nat) : ℚ :=
  noise_amount * (listMax (x.getD c []).flatten - listMin (x.getD c []).flatten)

/-- Elementwise addition of two tensors (numpy broadcasting is not needed:
the code only adds equal-shaped arrays). -/
def addT (a b : Tensor3) : Tensor3 :=
  List.zipWith (fun p q => List.zipWith (fun r s => List.zipWith (· + ·) r s) p q) a b

/-- Scalar multiple of a tensor. -/
def smulT (c : ℚ) (t : Tensor3) : Tensor3 :=
  t.map (fun m => m.map (fun r => r.map (fun x => c * x)))

/-- Shape of a tensor: the list of row lengths of each channel. -/
def shape3 (t : Tensor3) : List (List Nat) :=
  t.map (fun m => m.map List.length)

/-- Entry of a tensor at channel `c`, row `r`, column `w` (0 out of range). -/
def getT (t : Tensor3) (c r w : Nat) : ℚ :=
  ((t.getD c []).getD r []).getD w 0

/-- `data_noised` for the single-sample case the code enforces
(`assert len(data) == 1`): entry `i` is
`data + np.float32(np.random.normal(0.0, stds[0], (1,) + data[0].shape))`,
i.e. `x + stds[0] * z i`. -/
def data_noised (noise_amount : ℚ) (x : Tensor3) (z : Nat → Tensor3) (n_samples : Nat) :
    List Tensor3 :=
  (List.range n_samples).map (fun i => addT x (smulT (sampleStd noise_amount x) (z i)))

/-- Python slice `xs[lo:hi]` with nonnegative bounds (clamping). -/
def pySlice {α : Type} (xs : List α) (lo hi : Nat) : List α :=
  (xs.take hi).drop lo

/-- One call to the external prediction function: the batch it receives and
the label array it receives. -/
structure PredCall (α β : Type) where
  batch : List α
  labels : List β
  deriving DecidableEq, Repr

/-- The sequence of gradient-evaluation calls `interpret` issues:
```
if split > 1:
    chunk = n_samples // split
    for i in range(split-1):
        predict_fn(data_noised[i*chunk:(i+1)*chunk], np.repeat(labels, chunk))
    predict_fn(data_noised[chunk*(split-1):], np.repeat(labels, n_samples - chunk*(split-1)))
else:
    predict_fn(data_noised, np.repeat(labels, n_samples))
```
`np.repeat(labels, k)` with `labels` of shape (1,) is `List.replicate k label`. -/
def gradientCalls {α β : Type} (dn : List α) (label : β) (n_samples split : Nat) :
    List (PredCall α β) :=
  if 1 < split then
    let chunk := n_samples / split
    ((List.range (split - 1)).map (fun i =>
      ⟨pySlice dn (i * chunk) ((i + 1) * chunk), List.replicate chunk label⟩))
      ++ [⟨dn.drop (chunk * (split - 1)), List.replicate (n_samples - chunk * (split - 1)) label⟩]
  else
    [⟨dn, List.replicate n_samples label⟩]

/-- Run the evaluation loop: issue the calls in order, appending each chunk
of gradients; a raise (an `Except.error`) aborts the loop at once — later
calls are never issued and nothing is retried.  Returns the trace of calls
actually issued together with the loop result. -/
def runCallsTrace {α β γ ε : Type} (f : List α → List β → Except ε (List γ)) :
    List (PredCall α β) → List (PredCall α β) × Except ε (List γ)
  | [] => ([], Except.ok [])
  | c :: cs =>
    match f c.batch c.labels with
    | Except.error e => ([c], Except.error e)
    | Except.ok g =>
      match runCallsTrace f cs with
      | (t, Except.error e) => (c :: t, Except.error e)
      | (t, Except.ok rest) => (c :: t, Except.ok (g ++ rest))

/-- Elementwise sum of a list of gradients (empty on the empty list). -/
def sumT : List Tensor3 → Tensor3
  | [] => []
  | t :: ts => ts.foldl addT t

/-- `np.mean(gradients, axis=0)`: elementwise mean along the sample axis. -/
def meanT (gs : List Tensor3) : Tensor3 :=
  smulT (1 / (gs.length : ℚ)) (sumT gs)

/-- The value the Python loop variable `i` holds when the visualization
block indexes `imgs[i]` and `save_path[i]`: the last value of
`for i in range(split-1)` when that loop ran (`split > 1`), otherwise the
last value left by `for i in range(n_samples)`. -/
def leftoverIndex (n_samples split : Nat) : Nat :=
  if 1 < split then (List.range (split - 1)).getLastD ((List.range n_samples).getLastD 0)
  else (List.range n_samples).getLastD 0

/-- The external model: `predict_fn(data, None)` returning top-1 predictions,
and `predict_fn(batch, labels)` returning per-sample gradients.  Either may
raise, modelled by `Except`. -/
structure Model (ε : Type) where
  topPred : List Tensor3 → Except ε (List Nat)
  grads : List Tensor3 → List Nat → Except ε (List Tensor3)

/-- The keyword arguments of `interpret` that the core uses. -/
structure Config where
  noise_amount : ℚ
  n_samples : Nat
  split : Nat
  visual : Bool
  save : Bool
  deriving DecidableEq, Repr

/-- Failures `interpret` can surface.  `unsupportedBatchSize` is the
`assert len(data) == 1` failure (the spec name for that batch-size
enforcement); the other two wrap an exception raised by the external
prediction function, and `indexError` is the out-of-range `imgs[i]` /
`save_path[i]` lookup in the visualization block. -/
inductive InterpError (ε : Type) where
  | unsupportedBatchSize
  | labelPrediction (e : ε)
  | gradientComputation (e : ε)
  | indexError
  deriving DecidableEq, Repr

/-- Everything a caller can observe about one `interpret` invocation:
how many label-resolution prediction calls were issued, how many noise
replicas were drawn, the gradient-evaluation calls issued in order, whether
the visualization / save side effects happened, the value of the instance
attribute `self.labels` after the call (`st` = its value before), and the
returned `avg_gradients` or the raised error. -/
structure Outcome (ε : Type) where
  labelCalls : Nat
  noiseDrawn : Nat
  gradCalls : List (PredCall Tensor3 Nat)
  visualized : Bool
  saved : Bool
  newLabels : Option (List Nat)
  deriving Repr

/-- The result field of an outcome is kept separate so that `Outcome` stays
decidable; an interpret run is an `Outcome` plus a result. -/
structure RunResult (ε : Type) extends Outcome ε where
  result : Except (InterpError ε) Tensor3

/-- Label resolution: `if labels is None: _, preds = predict_fn(data, None);
labels = preds`, then `labels = np.array(labels).reshape((1,))`. -/
def resolveLabel {ε : Type} (m : Model ε) (data : List Tensor3)
    (labels? : Option Nat) : Except ε Nat :=
  match labels? with
  | some l => Except.ok l
  | none => (m.topPred data).map (fun ps => ps.getD 0 0)

/-- The part of interpret after label resolution: noise generation, chunked
gradient evaluation, averaging, the visualization block (which indexes the
one display image and the one save-path entry with the leftover loop
variable, raising IndexError when that index is not 0) and the final
`self.labels = labels` assignment. -/
def interpretCore {ε : Type} (m : Model ε) (cfg : Config) (x : Tensor3) (l : Nat)
    (z : Nat → Tensor3) (st : Option (List Nat)) (labelCalls : Nat) : RunResult ε :=
  match runCallsTrace m.grads (gradientCalls
      (data_noised cfg.noise_amount x z cfg.n_samples) l cfg.n_samples cfg.split) with
  | (t, Except.error e) =>
    ⟨⟨labelCalls, cfg.n_samples, t, false, false, st⟩,
      Except.error (InterpError.gradientComputation e)⟩
  | (t, Except.ok gs) =>
    if cfg.visual || cfg.save then
      if leftoverIndex cfg.n_samples cfg.split = 0 then
        ⟨⟨labelCalls, cfg.n_samples, t, cfg.visual, cfg.save, some [l]⟩,
          Except.ok (meanT gs)⟩
      else
        ⟨⟨labelCalls, cfg.n_samples, t, false, false, st⟩,
          Except.error InterpError.indexError⟩
    else
      ⟨⟨labelCalls, cfg.n_samples, t, false, false, some [l]⟩, Except.ok (meanT gs)⟩

/-- Shallow embedding of `SmoothGradInterpreterV2.interpret` after the
(external) preprocessing step: `data` is the preprocessed batch, `labels?`
the caller label (already a single class index, or none), `z` the ambient
noise stream, `st` the instance attribute `self.labels` before the call.
Step order follows the source: batch-size assert, label resolution, then
the core (noise generation, chunked evaluation, averaging, visualization,
attribute assignment). -/
def interpret {ε : Type} (m : Model ε) (cfg : Config) (data : List Tensor3)
    (labels? : Option Nat) (z : Nat → Tensor3) (st : Option (List Nat)) : RunResult ε :=
  if data.length = 1 then
    let labelCalls := if labels?.isSome then 0 else 1
    match resolveLabel m data labels? with
    | Except.error e =>
      ⟨⟨labelCalls, 0, [], false, false, st⟩, Except.error (InterpError.labelPrediction e)⟩
    | Except.ok l => interpretCore m cfg (data.getD 0 []) l z st labelCalls
  else
    ⟨⟨0, 0, [], false, false, st⟩, Except.error InterpError.unsupportedBatchSize⟩

/-! ## List-level helper lemmas -/

theorem getLastD_range (m : Nat) : (List.range m).getLastD 0 = m - 1 := by
  cases m with
  | zero => rfl
  | succ k => rw [List.range_succ, List.getLastD_concat]; omega

theorem getLastD_range_pos (m d : Nat) (hm : 1 ≤ m) : (List.range m).getLastD d = m - 1 := by
  cases m with
  | zero => omega
  | succ k => rw [List.range_succ, List.getLastD_concat]; omega

theorem getD_map_lt {A B : Type} (f : A → B) (l : List A) (i : Nat) (da : A) (db : B)
    (h : i < l.length) : (l.map f).getD i db = f (l.getD i da) := by
  induction l generalizing i with
  | nil => simp at h
  | cons x xs ih =>
    cases i with
    | zero => rfl
    | succ j => simpa using ih j (by simpa using h)

theorem getD_range_lt {i n : Nat} (h : i < n) (d : Nat) : (List.range n).getD i d = i := by
  simp [List.getD, List.getElem?_range h]

theorem getD_zipWith_lt {A B C : Type} (f : A → B → C) (a : List A) (b : List B) (i : Nat)
    (da : A) (db : B) (dc : C) (ha : i < a.length) (hb : i < b.length) :
    (List.zipWith f a b).getD i dc = f (a.getD i da) (b.getD i db) := by
  induction a generalizing b i with
  | nil => simp at ha
  | cons x xs ih =>
    cases b with
    | nil => simp at hb
    | cons y ys =>
      cases i with
      | zero => rfl
      | succ j => simpa using ih ys j (by simpa using ha) (by simpa using hb)

theorem zipWith_replicate_label {A B C : Type} (g : A → B → C) (b : List A) (l : B) :
    List.zipWith g b (List.replicate b.length l) = b.map (fun s => g s l) := by
  induction b with
  | nil => rfl
  | cons x xs ih =>
    simp only [List.length_cons, List.replicate_succ, List.zipWith_cons_cons, List.map_cons]
    rw [ih]

/-! ## The chunk slices partition the noised batch -/

theorem frontChunks_flatten {α : Type} (xs : List α) (c : Nat) (m : Nat) :
    ((List.range m).map (fun i => pySlice xs (i * c) ((i + 1) * c))).flatten
      = xs.take (m * c) := by
  induction m with
  | zero => simp
  | succ k ih =>
    rw [List.range_succ, List.map_append, List.flatten_append, ih]
    have h1 : (k + 1) * c = k * c + c := by ring
    simp only [List.map_cons, List.map_nil, List.flatten_cons, List.flatten_nil,
      List.append_nil, pySlice, h1]
    rw [List.drop_take, Nat.add_sub_cancel_left, List.take_add]

/-- Chunking never drops, duplicates or reorders a sample: the batches of
the issued calls, concatenated in call order, are exactly the noised batch.
Holds for every split factor. -/
theorem gradientCalls_batches_flatten {α β : Type} (dn : List α) (label : β)
    (n split : Nat) :
    ((gradientCalls dn label n split).map PredCall.batch).flatten = dn := by
  unfold gradientCalls
  by_cases h : 1 < split
  · simp only [h, if_true]
    rw [List.map_append, List.flatten_append, List.map_map]
    have hfront : (List.map (PredCall.batch ∘ fun i =>
        (⟨pySlice dn (i * (n / split)) ((i + 1) * (n / split)),
          List.replicate (n / split) label⟩ : PredCall α β)) (List.range (split - 1))).flatten
        = dn.take ((split - 1) * (n / split)) := by
      have := frontChunks_flatten dn (n / split) (split - 1)
      simpa [Function.comp] using this
    rw [hfront]
    simp [Nat.mul_comm]
  · simp [h]

/-- Every issued call receives the label replicated exactly to its batch
size.  Holds for every split factor, as soon as the noised batch really has
`n_samples` entries. -/
theorem gradientCalls_labels {α β : Type} (dn : List α) (label : β) (n split : Nat)
    (hlen : dn.length = n) :
    ∀ c ∈ gradientCalls dn label n split, c.labels = List.replicate c.batch.length label := by
  intro c hc
  unfold gradientCalls at hc
  by_cases h : 1 < split
  · simp only [h, if_true, List.mem_append, List.mem_map, List.mem_range] at hc
    rcases hc with ⟨i, hi, rfl⟩ | hc
    · have hchunk : (i + 1) * (n / split) ≤ n := by
        have h1 : i + 1 ≤ split := by omega
        calc (i + 1) * (n / split) ≤ split * (n / split) := by
              exact Nat.mul_le_mul_right _ h1
          _ = n / split * split := by ring
          _ ≤ n := Nat.div_mul_le_self n split
      have hlen2 : (pySlice dn (i * (n / split)) ((i + 1) * (n / split))).length
          = n / split := by
        simp only [pySlice, List.length_drop, List.length_take, hlen]
        have hmin : min ((i + 1) * (n / split)) n = (i + 1) * (n / split) :=
          Nat.min_eq_left hchunk
        have h3 : (i + 1) * (n / split) = i * (n / split) + n / split := by ring
        rw [hmin, h3, Nat.add_sub_cancel_left]
      simp [hlen2]
    · simp only [List.mem_singleton] at hc
      subst hc
      have hle : n / split * (split - 1) ≤ n := by
        calc n / split * (split - 1) ≤ n / split * split :=
              Nat.mul_le_mul_left _ (by omega)
          _ ≤ n := Nat.div_mul_le_self n split
      simp [List.length_drop, hlen]
  · simp only [h, if_false, List.mem_singleton] at hc
    subst hc
    simp [hlen]

/-! ## Behaviour of the evaluation loop -/

theorem runCallsTrace_ok {α β γ ε : Type} (f : List α → List β → Except ε (List γ))
    (h : PredCall α β → List γ) :
    ∀ calls : List (PredCall α β),
      (∀ c ∈ calls, f c.batch c.labels = Except.ok (h c)) →
      runCallsTrace f calls = (calls, Except.ok ((calls.map h).flatten)) := by
  intro calls
  induction calls with
  | nil => intro _; rfl
  | cons c cs ih =>
    intro hall
    have hc : f c.batch c.labels = Except.ok (h c) := hall c (by simp)
    have hcs := ih (fun d hd => hall d (by simp [hd]))
    simp [runCallsTrace, hc, hcs]

theorem runCallsTrace_ok_trace {α β γ ε : Type} (f : List α → List β → Except ε (List γ)) :
    ∀ calls : List (PredCall α β),
      (∀ c ∈ calls, ∃ gs, f c.batch c.labels = Except.ok gs) →
      (runCallsTrace f calls).1 = calls := by
  intro calls
  induction calls with
  | nil => intro _; rfl
  | cons c cs ih =>
    intro hall
    obtain ⟨gs, hc⟩ := hall c (by simp)
    have hcs := ih (fun d hd => hall d (by simp [hd]))
    simp only [runCallsTrace, hc]
    rcases hrec : runCallsTrace f cs with ⟨t, r⟩
    rw [hrec] at hcs
    cases r with
    | error e => simpa using hcs
    | ok rest => simpa using hcs

/-- If the j-th call is the first one on which the prediction function
raises, the loop issues the calls up to and including call j, each exactly
once and in order, issues nothing after it, performs no retry, and returns
exactly the raised error. -/
theorem runCallsTrace_firstFail {α β γ ε : Type} (f : List α → List β → Except ε (List γ))
    (e : ε) :
    ∀ (calls : List (PredCall α β)) (j : Nat), j < calls.length →
      (∀ i, i < j → ∃ gs,
        f (calls.getD i ⟨[], []⟩).batch (calls.getD i ⟨[], []⟩).labels = Except.ok gs) →
      f (calls.getD j ⟨[], []⟩).batch (calls.getD j ⟨[], []⟩).labels = Except.error e →
      runCallsTrace f calls = (calls.take (j + 1), Except.error e) := by
  intro calls
  induction calls with
  | nil => intro j hj; simp at hj
  | cons c cs ih =>
    intro j hj hok hfail
    cases j with
    | zero =>
      simp only [List.getD_cons_zero] at hfail
      simp [runCallsTrace, hfail]
    | succ k =>
      obtain ⟨gs, hc⟩ := hok 0 (Nat.succ_pos k)
      simp only [List.getD_cons_zero] at hc
      have hrec := ih k (by simpa using hj)
        (fun i hi => by simpa using hok (i + 1) (by omega))
        (by simpa using hfail)
      simp [runCallsTrace, hc, hrec]

/-- For a prediction function that computes each gradient per-sample (the
independence assumption), the chunked loop succeeds and returns exactly the
per-sample gradients of the noised batch in order, for EVERY split factor. -/
theorem runCalls_pointwise {α β γ ε : Type} (f : List α → List β → Except ε (List γ))
    (g : α → β → γ) (dn : List α) (label : β) (n split : Nat)
    (hf : ∀ bs ls, f bs ls = Except.ok (List.zipWith g bs ls))
    (hlen : dn.length = n) :
    runCallsTrace f (gradientCalls dn label n split)
      = (gradientCalls dn label n split, Except.ok (dn.map (fun s => g s label))) := by
  have hok : ∀ c ∈ gradientCalls dn label n split,
      f c.batch c.labels = Except.ok ((fun c : PredCall α β =>
        c.batch.map (fun s => g s label)) c) := by
    intro c hc
    rw [hf c.batch c.labels, gradientCalls_labels dn label n split hlen c hc,
      zipWith_replicate_label]
  rw [runCallsTrace_ok f _ _ hok]
  have hjoin : ((gradientCalls dn label n split).map (fun c : PredCall α β =>
      c.batch.map (fun s => g s label))).flatten = dn.map (fun s => g s label) := by
    have hmapmap : (gradientCalls dn label n split).map (fun c : PredCall α β =>
        c.batch.map (fun s => g s label))
        = ((gradientCalls dn label n split).map PredCall.batch).map
            (List.map (fun s => g s label)) := by
      rw [List.map_map]
      rfl
    rw [hmapmap, ← List.map_flatten, gradientCalls_batches_flatten]
  rw [hjoin]

/-! ## Tensor algebra lemmas -/

theorem zipWith_add_map_zero_row (r s : List ℚ) (h : s.length = r.length) :
    List.zipWith (· + ·) r (s.map (fun x => (0 : ℚ) * x)) = r := by
  induction r generalizing s with
  | nil => rfl
  | cons x xs ih =>
    cases s with
    | nil => simp at h
    | cons y ys =>
      simp only [List.map_cons, List.zipWith_cons_cons]
      rw [ih ys (by simpa using h)]
      have hx : x + 0 * y = x := by ring
      rw [hx]

theorem zipWith_add_map_zero_mat (r s : List (List ℚ))
    (h : s.map List.length = r.map List.length) :
    List.zipWith (fun p q => List.zipWith (· + ·) p q) r
      (s.map (fun p => p.map (fun x => (0 : ℚ) * x))) = r := by
  induction r generalizing s with
  | nil => rfl
  | cons x xs ih =>
    cases s with
    | nil => simp at h
    | cons y ys =>
      simp only [List.map_cons, List.cons.injEq] at h
      simp only [List.map_cons, List.zipWith_cons_cons]
      rw [zipWith_add_map_zero_row x y h.1, ih ys h.2]

/-- Adding a zero-std noise draw of the same shape changes nothing: the
Gaussian draw with zero standard deviation is exactly zero. -/
theorem addT_smulT_zero (x zt : Tensor3) (h : shape3 zt = shape3 x) :
    addT x (smulT 0 zt) = x := by
  unfold addT smulT
  induction x generalizing zt with
  | nil => rfl
  | cons m ms ih =>
    cases zt with
    | nil => simp [shape3] at h
    | cons w ws =>
      simp only [shape3, List.map_cons, List.cons.injEq] at h
      simp only [List.map_cons, List.zipWith_cons_cons]
      rw [zipWith_add_map_zero_mat m w h.1]
      have := ih ws
      simp only [shape3] at this
      rw [this h.2]

theorem smulT_one (t : Tensor3) : smulT 1 t = t := by
  simp [smulT]

theorem smulT_smulT (a b : ℚ) (t : Tensor3) : smulT a (smulT b t) = smulT (a * b) t := by
  simp [smulT, List.map_map, Function.comp, mul_assoc]

theorem zipWith_map_add_self_row (c : ℚ) (r : List ℚ) :
    List.zipWith (· + ·) (r.map (fun x => c * x)) r = r.map (fun x => (c + 1) * x) := by
  induction r with
  | nil => rfl
  | cons x xs ih =>
    simp only [List.map_cons, List.zipWith_cons_cons, ih, List.cons.injEq]
    exact ⟨by ring, trivial⟩

theorem zipWith_map_add_self_mat (c : ℚ) (r : List (List ℚ)) :
    List.zipWith (fun p q => List.zipWith (· + ·) p q) (r.map (fun p => p.map (fun x => c * x))) r
      = r.map (fun p => p.map (fun x => (c + 1) * x)) := by
  induction r with
  | nil => rfl
  | cons x xs ih =>
    simp only [List.map_cons, List.zipWith_cons_cons, ih, List.cons.injEq]
    exact ⟨zipWith_map_add_self_row c x, trivial⟩

theorem addT_smulT_self (c : ℚ) (y : Tensor3) : addT (smulT c y) y = smulT (c + 1) y := by
  unfold addT smulT
  induction y with
  | nil => rfl
  | cons m ms ih =>
    simp only [List.map_cons, List.zipWith_cons_cons, List.cons.injEq]
    exact ⟨zipWith_map_add_self_mat c m, ih⟩

theorem foldl_addT_replicate (y : Tensor3) :
    ∀ (k : Nat) (c : ℚ),
      (List.replicate k y).foldl addT (smulT c y) = smulT (c + k) y := by
  intro k
  induction k with
  | zero => intro c; simp
  | succ j ih =>
    intro c
    rw [List.replicate_succ, List.foldl_cons, addT_smulT_self c y, ih (c + 1)]
    congr 1
    push_cast
    ring

/-- The mean over n identical gradients is that gradient (n >= 1). -/
theorem meanT_replicate (n : Nat) (hn : 1 ≤ n) (y : Tensor3) :
    meanT (List.replicate n y) = y := by
  obtain ⟨k, rfl⟩ : ∃ k, n = k + 1 := ⟨n - 1, by omega⟩
  have h1 : (List.replicate k y).foldl addT (smulT 1 y) = smulT (1 + (k : ℚ)) y :=
    foldl_addT_replicate y k 1
  rw [smulT_one] at h1
  have hsum : sumT (List.replicate (k + 1) y) = smulT (1 + (k : ℚ)) y := by
    rw [List.replicate_succ]
    exact h1
  unfold meanT
  rw [hsum, smulT_smulT, List.length_replicate]
  have harith : (1 : ℚ) / ((k + 1 : ℕ) : ℚ) * (1 + (k : ℚ)) = 1 := by
    have hne : ((k : ℚ) + 1) ≠ 0 := by positivity
    push_cast
    field_simp
    ring
  rw [harith, smulT_one]

/-- Zero noise amount degenerates the noised batch to n identical copies of
the input sample. -/
theorem data_noised_zero (x : Tensor3) (z : Nat → Tensor3) (n : Nat)
    (hz : ∀ i, shape3 (z i) = shape3 x) :
    data_noised 0 x z n = List.replicate n x := by
  unfold data_noised sampleStd
  have hzero : ∀ i, addT x (smulT (0 * (maxT x - minT x)) (z i)) = x := by
    intro i
    rw [zero_mul, addT_smulT_zero x (z i) (hz i)]
  calc (List.range n).map (fun i => addT x (smulT (0 * (maxT x - minT x)) (z i)))
      = (List.range n).map (fun _ => x) := List.map_congr_left (fun i _ => hzero i)
    _ = List.replicate n x := by simp [List.map_const]

/-! ## Shape transfer and elementwise access -/

theorem shape3_smulT (s : ℚ) (t : Tensor3) : shape3 (smulT s t) = shape3 t := by
  simp [shape3, smulT, List.map_map, Function.comp]

theorem shape3_length_eq {a b : Tensor3} (h : shape3 b = shape3 a) : b.length = a.length := by
  have := congrArg List.length h
  simpa [shape3] using this

theorem shape3_getD_row_lengths {a b : Tensor3} (h : shape3 b = shape3 a) {c : Nat}
    (hc : c < a.length) :
    (b.getD c []).map List.length = (a.getD c []).map List.length := by
  have hb : c < b.length := by rw [shape3_length_eq h]; exact hc
  have h1 : (b.map (fun m => m.map List.length)).getD c ([] : List Nat)
      = (a.map (fun m => m.map List.length)).getD c ([] : List Nat) := by
    have h2 : shape3 b = shape3 a := h
    simp only [shape3] at h2
    rw [h2]
  rw [getD_map_lt _ b c [] _ hb, getD_map_lt _ a c [] _ hc] at h1
  exact h1

theorem shape3_getD_length {a b : Tensor3} (h : shape3 b = shape3 a) {c : Nat}
    (hc : c < a.length) : (b.getD c []).length = (a.getD c []).length := by
  have := congrArg List.length (shape3_getD_row_lengths h hc)
  simpa using this

theorem shape3_getD_getD_length {a b : Tensor3} (h : shape3 b = shape3 a) {c r : Nat}
    (hc : c < a.length) (hr : r < (a.getD c []).length) :
    ((b.getD c []).getD r []).length = ((a.getD c []).getD r []).length := by
  have hrow := shape3_getD_row_lengths h hc
  have hrb : r < (b.getD c []).length := by rw [shape3_getD_length h hc]; exact hr
  have h1 : ((b.getD c []).map List.length).getD r (0 : Nat)
      = ((a.getD c []).map List.length).getD r (0 : Nat) := by
    rw [hrow]
  rw [getD_map_lt _ _ r [] _ hrb, getD_map_lt _ _ r [] _ hr] at h1
  exact h1

theorem getT_addT (a b : Tensor3) (c r w : Nat)
    (hca : c < a.length) (hcb : c < b.length)
    (hra : r < (a.getD c []).length) (hrb : r < (b.getD c []).length)
    (hwa : w < ((a.getD c []).getD r []).length) (hwb : w < ((b.getD c []).getD r []).length) :
    getT (addT a b) c r w = getT a c r w + getT b c r w := by
  unfold getT addT
  rw [getD_zipWith_lt _ a b c [] [] [] hca hcb,
    getD_zipWith_lt _ _ _ r [] [] [] hra hrb,
    getD_zipWith_lt _ _ _ w 0 0 0 hwa hwb]

theorem getT_smulT (s : ℚ) (t : Tensor3) (c r w : Nat)
    (hc : c < t.length) (hr : r < (t.getD c []).length)
    (hw : w < ((t.getD c []).getD r []).length) :
    getT (smulT s t) c r w = s * getT t c r w := by
  unfold getT smulT
  rw [getD_map_lt _ t c [] _ hc, getD_map_lt _ _ r [] _ hr]
  have : ((((t.getD c []).getD r []).map (fun x => s * x)).getD w (s * 0)) =
      s * (((t.getD c []).getD r []).getD w 0) := getD_map_lt _ _ w 0 _ hw
  rw [mul_zero] at this
  rw [this]

/-! ## Indexed access into the issued calls -/

theorem gradientCalls_length {α β : Type} (dn : List α) (label : β) (N S : Nat)
    (hS : 1 < S) : (gradientCalls dn label N S).length = S := by
  unfold gradientCalls
  simp only [hS, if_true, List.length_append, List.length_map, List.length_range,
    List.length_singleton]
  omega

theorem gradientCalls_getD_front {α β : Type} (dn : List α) (label : β) (N S i : Nat)
    (hS : 1 < S) (hi : i < S - 1) :
    (gradientCalls dn label N S).getD i ⟨[], []⟩
      = ⟨pySlice dn (i * (N / S)) ((i + 1) * (N / S)), List.replicate (N / S) label⟩ := by
  unfold gradientCalls
  simp only [hS, if_true]
  rw [List.getD_append _ _ _ i (by simpa using hi)]
  rw [getD_map_lt (fun j => (⟨pySlice dn (j * (N / S)) ((j + 1) * (N / S)),
      List.replicate (N / S) label⟩ : PredCall α β)) (List.range (S - 1)) i 0 ⟨[], []⟩
    (by simpa using hi)]
  rw [getD_range_lt hi]

theorem gradientCalls_getD_last {α β : Type} (dn : List α) (label : β) (N S : Nat)
    (hS : 1 < S) :
    (gradientCalls dn label N S).getD (S - 1) ⟨[], []⟩
      = ⟨dn.drop ((N / S) * (S - 1)), List.replicate (N - (N / S) * (S - 1)) label⟩ := by
  unfold gradientCalls
  simp only [hS, if_true]
  rw [List.getD_append_right _ _ _ (S - 1) (by simp)]
  simp

theorem pySlice_chunk_length {α : Type} (dn : List α) (n split i : Nat)
    (hlen : dn.length = n) (hi : i + 1 ≤ split) :
    (pySlice dn (i * (n / split)) ((i + 1) * (n / split))).length = n / split := by
  have hchunk : (i + 1) * (n / split) ≤ n := by
    calc (i + 1) * (n / split) ≤ split * (n / split) := Nat.mul_le_mul_right _ hi
      _ = n / split * split := by ring
      _ ≤ n := Nat.div_mul_le_self n split
  simp only [pySlice, List.length_drop, List.length_take, hlen]
  have hmin : min ((i + 1) * (n / split)) n = (i + 1) * (n / split) :=
    Nat.min_eq_left hchunk
  have h3 : (i + 1) * (n / split) = i * (n / split) + n / split := by ring
  rw [hmin, h3, Nat.add_sub_cancel_left]

theorem chunk_le_remainder (N S : Nat) (hS : 2 ≤ S) :
    N / S ≤ N - N / S * (S - 1) := by
  have hq : N / S * (S - 1) + N / S = N / S * S := by
    have h1 : N / S * (S - 1) + N / S = N / S * ((S - 1) + 1) := by rw [Nat.mul_succ]
    rw [h1, show S - 1 + 1 = S by omega]
  have hle : N / S * S ≤ N := Nat.div_mul_le_self N S
  have hsum : N / S * (S - 1) + N / S ≤ N := hq ▸ hle
  exact Nat.le_sub_of_add_le (by rw [Nat.add_comm]; exact hsum)

/-! ## Claims -/

/-- Claim C1: chunk-invariance.  For every fixed noised batch of size
n_samples, resolved label, and split factor k with 1 <= k <= n_samples,
assuming the external prediction function computes each gradient
per-sample (independently of batch-mates), the concatenated gradient batch
of the chunked evaluation equals the single unsplit evaluation, equals the
per-sample gradients in order (no drop, no duplicate, every sample paired
with the one resolved label), and hence the mean explanation map agrees. -/
theorem C1_chunk_invariance {ε : Type}
    (f : List Tensor3 → List Nat → Except ε (List Tensor3))
    (g : Tensor3 → Nat → Tensor3) (dn : List Tensor3) (label : Nat) (n k : Nat)
    (hf : ∀ bs ls, f bs ls = Except.ok (List.zipWith g bs ls))
    (hlen : dn.length = n) (hk1 : 1 ≤ k) (hk2 : k ≤ n) :
    (runCallsTrace f (gradientCalls dn label n k)).2
      = (runCallsTrace f (gradientCalls dn label n 1)).2
    ∧ (runCallsTrace f (gradientCalls dn label n k)).2
        = Except.ok (dn.map (fun s => g s label))
    ∧ Except.map meanT (runCallsTrace f (gradientCalls dn label n k)).2
        = Except.map meanT (runCallsTrace f (gradientCalls dn label n 1)).2 := by
  have h1 := runCalls_pointwise f g dn label n k hf hlen
  have h2 := runCalls_pointwise f g dn label n 1 hf hlen
  rw [h1, h2]
  exact ⟨rfl, rfl, rfl⟩

theorem C1_chunk_invariance_witness :
    ([[[[(1 : ℚ)]]], [[[2]]]] : List Tensor3).length = 2 ∧ 1 ≤ 2 ∧ 2 ≤ 2
    ∧ (runCallsTrace
        (fun bs ls => (Except.ok (List.zipWith (fun s (_ : Nat) => smulT 2 s) bs ls) :
          Except Unit (List Tensor3)))
        (gradientCalls [[[[(1 : ℚ)]]], [[[2]]]] 7 2 2)).2
      = Except.ok (([[[[(1 : ℚ)]]], [[[2]]]] : List Tensor3).map
          (fun s => smulT 2 s)) :=
  ⟨rfl, by norm_num, by norm_num,
    (C1_chunk_invariance
      (fun bs ls => Except.ok (List.zipWith (fun s (_ : Nat) => smulT 2 s) bs ls))
      (fun s (_ : Nat) => smulT 2 s) [[[[(1 : ℚ)]]], [[[2]]]] 7 2 2
      (fun _ _ => rfl) rfl (by norm_num) (by norm_num)).2.1⟩

/-- Claim C2 as stated is false: the code computes ONE std per sample over
all channels and spatial positions jointly, not one per channel.  On the
input [[[0,0]],[[0,1]]] (two channels, channel 0 constant, channel 1 with
range 1) and noise_amount 1, the std the code uses (the per-sample scalar,
= 1) differs from the per-channel formula for channel 0 (= 0), and the
noise actually added at a channel-0 position differs from what the
per-channel claim predicts. -/
theorem C2_per_channel_std_counterexample :
    sampleStd 1 [[[0, 0]], [[0, 1]]] ≠ channelStd 1 [[[0, 0]], [[0, 1]]] 0
    ∧ getT ((data_noised 1 [[[0, 0]], [[0, 1]]]
          (fun _ => [[[1, 1]], [[1, 1]]]) 1).getD 0 []) 0 0 0
        ≠ getT [[[0, 0]], [[0, 1]]] 0 0 0
          + channelStd 1 [[[0, 0]], [[0, 1]]] 0 * getT [[[1, 1]], [[1, 1]]] 0 0 0 := by
  constructor <;>
    norm_num [sampleStd, channelStd, maxT, minT, flatten3, listMax, listMin,
      data_noised, addT, smulT, getT, List.range_succ]

/-- Claim C2 (amended): noise calibration is per-sample, not per-channel.
For every channel c and spatial position of the input sample, the noise
added to replica i is `noise_amount * (max - min over ALL channels and
spatial positions of the sample)` times the standard-normal draw — a single
scalar std shared by every channel, computed from the whole sample's value
range rather than from channel c's own range. -/
theorem C2_per_sample_std (na : ℚ) (x : Tensor3) (z : Nat → Tensor3) (n i c r w : Nat)
    (hi : i < n) (hz : shape3 (z i) = shape3 x)
    (hc : c < x.length) (hr : r < (x.getD c []).length)
    (hw : w < ((x.getD c []).getD r []).length) :
    getT ((data_noised na x z n).getD i []) c r w
      = getT x c r w + na * (maxT x - minT x) * getT (z i) c r w := by
  unfold data_noised
  rw [getD_map_lt (fun j => addT x (smulT (sampleStd na x) (z j)))
    (List.range n) i 0 [] (by simpa using hi)]
  rw [getD_range_lt hi]
  have hsh : shape3 (smulT (sampleStd na x) (z i)) = shape3 x := by
    rw [shape3_smulT]; exact hz
  have hcb : c < (smulT (sampleStd na x) (z i)).length := by
    rw [shape3_length_eq hsh]; exact hc
  have hrb : r < ((smulT (sampleStd na x) (z i)).getD c []).length := by
    rw [shape3_getD_length hsh hc]; exact hr
  have hwb : w < (((smulT (sampleStd na x) (z i)).getD c []).getD r []).length := by
    rw [shape3_getD_getD_length hsh hc hr]; exact hw
  rw [getT_addT x _ c r w hc hcb hr hrb hw hwb]
  have hcz : c < (z i).length := by rw [shape3_length_eq hz]; exact hc
  have hrz : r < ((z i).getD c []).length := by rw [shape3_getD_length hz hc]; exact hr
  have hwz : w < (((z i).getD c []).getD r []).length := by
    rw [shape3_getD_getD_length hz hc hr]; exact hw
  rw [getT_smulT (sampleStd na x) (z i) c r w hcz hrz hwz]
  simp only [sampleStd]

theorem C2_per_sample_std_witness :
    0 < 1
    ∧ shape3 [[[(1 : ℚ), 1]], [[1, 1]]] = shape3 [[[(0 : ℚ), 0]], [[0, 1]]]
    ∧ 1 < ([[[(0 : ℚ), 0]], [[0, 1]]] : Tensor3).length
    ∧ getT ((data_noised 1 [[[0, 0]], [[0, 1]]]
          (fun _ => [[[1, 1]], [[1, 1]]]) 1).getD 0 []) 1 0 1
        = getT [[[0, 0]], [[0, 1]]] 1 0 1
          + 1 * (maxT [[[0, 0]], [[0, 1]]] - minT [[[0, 0]], [[0, 1]]])
            * getT [[[1, 1]], [[1, 1]]] 1 0 1 :=
  ⟨by norm_num, by decide, by decide,
    C2_per_sample_std 1 [[[0, 0]], [[0, 1]]] (fun _ => [[[1, 1]], [[1, 1]]]) 1 0 1 0 1
      (by norm_num) (by decide) (by decide) (by decide) (by decide)⟩

/-- Claim C3: chunking policy.  With data length N, split S >= 2 and
N >= S, the evaluator issues exactly S calls: the first S-1 on consecutive
slices of exactly chunk = N / S samples each, in index order, and the final
call on the remaining N - chunk*(S-1) samples (a count >= chunk); the
batches concatenated in call order are exactly the noised batch (the S
slices partition indices 0..N-1 in order).  For S = 1 a single unsplit
call on all N samples is issued. -/
theorem C3_chunking_policy {α β : Type} (dn : List α) (label : β) (N S : Nat)
    (hlen : dn.length = N) (hS : 2 ≤ S) (hSN : S ≤ N) :
    (gradientCalls dn label N S).length = S
    ∧ ((gradientCalls dn label N S).map PredCall.batch).flatten = dn
    ∧ (∀ i, i < S - 1 →
        ((gradientCalls dn label N S).getD i ⟨[], []⟩).batch
          = pySlice dn (i * (N / S)) ((i + 1) * (N / S))
        ∧ ((gradientCalls dn label N S).getD i ⟨[], []⟩).batch.length = N / S)
    ∧ ((gradientCalls dn label N S).getD (S - 1) ⟨[], []⟩).batch
        = dn.drop (N / S * (S - 1))
    ∧ ((gradientCalls dn label N S).getD (S - 1) ⟨[], []⟩).batch.length
        = N - N / S * (S - 1)
    ∧ N / S ≤ N - N / S * (S - 1)
    ∧ gradientCalls dn label N 1 = [⟨dn, List.replicate N label⟩] := by
  refine ⟨gradientCalls_length dn label N S (by omega),
    gradientCalls_batches_flatten dn label N S, ?_, ?_, ?_,
    chunk_le_remainder N S hS, ?_⟩
  · intro i hi
    rw [gradientCalls_getD_front dn label N S i (by omega) hi]
    exact ⟨rfl, pySlice_chunk_length dn N S i hlen (by omega)⟩
  · rw [gradientCalls_getD_last dn label N S (by omega)]
  · rw [gradientCalls_getD_last dn label N S (by omega)]
    simp [hlen]
  · unfold gradientCalls
    simp

theorem C3_chunking_policy_witness :
    ([10, 20, 30, 40, 50] : List Nat).length = 5 ∧ 2 ≤ 2 ∧ 2 ≤ 5
    ∧ ((gradientCalls [10, 20, 30, 40, 50] 7 5 2).length = 2
      ∧ ((gradientCalls [10, 20, 30, 40, 50] 7 5 2).map PredCall.batch).flatten
          = [10, 20, 30, 40, 50]
      ∧ (∀ i, i < 2 - 1 →
          ((gradientCalls [10, 20, 30, 40, 50] 7 5 2).getD i ⟨[], []⟩).batch
            = pySlice [10, 20, 30, 40, 50] (i * (5 / 2)) ((i + 1) * (5 / 2))
          ∧ ((gradientCalls [10, 20, 30, 40, 50] 7 5 2).getD i ⟨[], []⟩).batch.length
              = 5 / 2)
      ∧ ((gradientCalls [10, 20, 30, 40, 50] 7 5 2).getD (2 - 1) ⟨[], []⟩).batch
          = [10, 20, 30, 40, 50].drop (5 / 2 * (2 - 1))
      ∧ ((gradientCalls [10, 20, 30, 40, 50] 7 5 2).getD (2 - 1) ⟨[], []⟩).batch.length
          = 5 - 5 / 2 * (2 - 1)
      ∧ 5 / 2 ≤ 5 - 5 / 2 * (2 - 1)
      ∧ gradientCalls [10, 20, 30, 40, 50] 7 5 1
          = [⟨[10, 20, 30, 40, 50], List.replicate 5 7⟩]) :=
  ⟨rfl, by norm_num, by norm_num,
    C3_chunking_policy [10, 20, 30, 40, 50] 7 5 2 rfl (by norm_num) (by norm_num)⟩

/-- Claim C4: label broadcast correctness.  Every evaluation call receives
the resolved label replicated exactly to its own batch size: with split
S >= 2 the front chunks receive N / S copies and the final chunk
N - (N / S)*(S-1) copies; the unsplit call receives N copies.  Never the
unreplicated scalar (the argument is always a replicated list) and never a
wrong count. -/
theorem C4_label_broadcast {α β : Type} (dn : List α) (label : β) (N S : Nat)
    (hlen : dn.length = N) (hS : 2 ≤ S) :
    (∀ c ∈ gradientCalls dn label N S, c.labels = List.replicate c.batch.length label)
    ∧ (∀ i, i < S - 1 →
        ((gradientCalls dn label N S).getD i ⟨[], []⟩).labels
          = List.replicate (N / S) label)
    ∧ ((gradientCalls dn label N S).getD (S - 1) ⟨[], []⟩).labels
        = List.replicate (N - N / S * (S - 1)) label
    ∧ (∀ c ∈ gradientCalls dn label N 1, c.labels = List.replicate c.batch.length label)
    ∧ ((gradientCalls dn label N 1).getD 0 ⟨[], []⟩).labels = List.replicate N label := by
  refine ⟨gradientCalls_labels dn label N S hlen, ?_, ?_,
    gradientCalls_labels dn label N 1 hlen, ?_⟩
  · intro i hi
    rw [gradientCalls_getD_front dn label N S i (by omega) hi]
  · rw [gradientCalls_getD_last dn label N S (by omega)]
  · unfold gradientCalls
    simp

theorem C4_label_broadcast_witness :
    ([10, 20, 30, 40, 50] : List Nat).length = 5 ∧ 2 ≤ 2
    ∧ ((∀ c ∈ gradientCalls [10, 20, 30, 40, 50] 7 5 2,
          c.labels = List.replicate c.batch.length 7)
      ∧ (∀ i, i < 2 - 1 →
          ((gradientCalls [10, 20, 30, 40, 50] 7 5 2).getD i ⟨[], []⟩).labels
            = List.replicate (5 / 2) 7)
      ∧ ((gradientCalls [10, 20, 30, 40, 50] 7 5 2).getD (2 - 1) ⟨[], []⟩).labels
          = List.replicate (5 - 5 / 2 * (2 - 1)) 7
      ∧ (∀ c ∈ gradientCalls [10, 20, 30, 40, 50] 7 5 1,
          c.labels = List.replicate c.batch.length 7)
      ∧ ((gradientCalls [10, 20, 30, 40, 50] 7 5 1).getD 0 ⟨[], []⟩).labels
          = List.replicate 5 7) :=
  ⟨rfl, by norm_num,
    C4_label_broadcast [10, 20, 30, 40, 50] 7 5 2 rfl (by norm_num)⟩

/-- Claim C5: batch-size enforcement.  A call whose preprocessed input
holds 2 or more samples fails with the batch-size error before any label
resolution (no label-resolution prediction call), before any noise
generation (no noise drawn) and before any gradient prediction call; it
returns no explanation map, performs no visualization or save, and leaves
the instance attribute unchanged. -/
theorem C5_batch_size_enforcement {ε : Type} (m : Model ε) (cfg : Config)
    (data : List Tensor3) (labels? : Option Nat) (z : Nat → Tensor3)
    (st : Option (List Nat)) (h : 2 ≤ data.length) :
    interpret m cfg data labels? z st
      = ⟨⟨0, 0, [], false, false, st⟩, Except.error InterpError.unsupportedBatchSize⟩ := by
  unfold interpret
  rw [if_neg (by omega)]

theorem C5_batch_size_enforcement_witness :
    2 ≤ ([[[[(0 : ℚ)]]], [[[1]]]] : List Tensor3).length
    ∧ interpret (⟨fun _ => Except.ok [0], fun _ _ => Except.ok []⟩ : Model Unit)
        ⟨1 / 10, 4, 2, true, false⟩ [[[[(0 : ℚ)]]], [[[1]]]] none (fun _ => []) (some [9])
      = ⟨⟨0, 0, [], false, false, some [9]⟩, Except.error InterpError.unsupportedBatchSize⟩ :=
  ⟨by norm_num,
    C5_batch_size_enforcement (⟨fun _ => Except.ok [0], fun _ _ => Except.ok []⟩ : Model Unit)
      ⟨1 / 10, 4, 2, true, false⟩ [[[[(0 : ℚ)]]], [[[1]]]] none (fun _ => []) (some [9])
      (by norm_num)⟩

/-- Claim C7 as stated is false: with n_samples = 1 < 2 = split the code
does NOT skip the empty leading chunk — it issues a zero-sized evaluation
call.  With an always-succeeding prediction function the trace of issued
calls contains the call with empty batch and empty label list, and holds 2
calls, not only the final one. -/
theorem C7_zero_sized_call_counterexample :
    (⟨[], []⟩ : PredCall Nat Nat) ∈
      (runCallsTrace (fun bs _ => (Except.ok bs : Except Unit (List Nat)))
        (gradientCalls [5] 7 1 2)).1
    ∧ (runCallsTrace (fun bs _ => (Except.ok bs : Except Unit (List Nat)))
        (gradientCalls [5] 7 1 2)).1.length = 2 := by
  decide

/-- Claim C7 (amended): when N < S (S >= 2), the integer-division chunk
size is 0 and the S-1 leading chunks are empty, but they are NOT skipped:
the evaluator still issues all S calls — the first S-1 with an empty batch
and an empty label list — and the final call carries all N samples with
the label replicated N times. -/
theorem C7_empty_chunks_issued {α β γ ε : Type} (dn : List α) (label : β) (N S : Nat)
    (f : List α → List β → Except ε (List γ))
    (hlen : dn.length = N) (hS : 2 ≤ S) (hNS : N < S)
    (hok : ∀ c ∈ gradientCalls dn label N S, ∃ gs, f c.batch c.labels = Except.ok gs) :
    N / S = 0
    ∧ (gradientCalls dn label N S).length = S
    ∧ (∀ i, i < S - 1 →
        ((gradientCalls dn label N S).getD i ⟨[], []⟩).batch = []
        ∧ ((gradientCalls dn label N S).getD i ⟨[], []⟩).labels = [])
    ∧ ((gradientCalls dn label N S).getD (S - 1) ⟨[], []⟩).batch = dn
    ∧ ((gradientCalls dn label N S).getD (S - 1) ⟨[], []⟩).labels
        = List.replicate N label
    ∧ (runCallsTrace f (gradientCalls dn label N S)).1 = gradientCalls dn label N S := by
  have hchunk : N / S = 0 := Nat.div_eq_of_lt hNS
  refine ⟨hchunk, gradientCalls_length dn label N S (by omega), ?_, ?_, ?_,
    runCallsTrace_ok_trace f _ hok⟩
  · intro i hi
    rw [gradientCalls_getD_front dn label N S i (by omega) hi, hchunk]
    constructor
    · simp [pySlice]
    · simp
  · rw [gradientCalls_getD_last dn label N S (by omega), hchunk]
    simp
  · rw [gradientCalls_getD_last dn label N S (by omega), hchunk]
    simp

theorem C7_empty_chunks_issued_witness :
    ([5] : List Nat).length = 1 ∧ 2 ≤ 3 ∧ 1 < 3
    ∧ (1 / 3 = 0
      ∧ (gradientCalls [5] 7 1 3).length = 3
      ∧ (∀ i, i < 3 - 1 →
          ((gradientCalls [5] 7 1 3).getD i ⟨[], []⟩).batch = []
          ∧ ((gradientCalls [5] 7 1 3).getD i ⟨[], []⟩).labels = [])
      ∧ ((gradientCalls [5] 7 1 3).getD (3 - 1) ⟨[], []⟩).batch = [5]
      ∧ ((gradientCalls [5] 7 1 3).getD (3 - 1) ⟨[], []⟩).labels = List.replicate 1 7
      ∧ (runCallsTrace (fun bs _ => (Except.ok bs : Except Unit (List Nat)))
          (gradientCalls [5] 7 1 3)).1 = gradientCalls [5] 7 1 3) :=
  ⟨rfl, by norm_num, by norm_num,
    C7_empty_chunks_issued [5] 7 1 3 (fun bs _ => Except.ok bs) rfl (by norm_num)
      (by norm_num) (fun c _ => ⟨c.batch, rfl⟩)⟩

/-- Reduction of interpret on the success path: single sample, explicit
label, gradient loop succeeds, no visualization and no save requested. -/
theorem interpret_single_ok {ε : Type} (m : Model ε) (cfg : Config) (x : Tensor3)
    (l0 : Nat) (z : Nat → Tensor3) (st : Option (List Nat))
    (t : List (PredCall Tensor3 Nat)) (gs : List Tensor3)
    (hrun : runCallsTrace m.grads (gradientCalls
        (data_noised cfg.noise_amount x z cfg.n_samples) l0 cfg.n_samples cfg.split)
      = (t, Except.ok gs))
    (hv : cfg.visual = false) (hs : cfg.save = false) :
    interpret m cfg [x] (some l0) z st
      = ⟨⟨0, cfg.n_samples, t, false, false, some [l0]⟩, Except.ok (meanT gs)⟩ := by
  unfold interpret resolveLabel interpretCore
  simp only [List.length_singleton, List.getD_cons_zero, Option.isSome_some, hv, hs, hrun]
  simp

/-- Reduction of interpret on the gradient-failure path: single sample,
explicit label, gradient loop raises. -/
theorem interpret_single_err {ε : Type} (m : Model ε) (cfg : Config) (x : Tensor3)
    (l0 : Nat) (z : Nat → Tensor3) (st : Option (List Nat))
    (t : List (PredCall Tensor3 Nat)) (e : ε)
    (hrun : runCallsTrace m.grads (gradientCalls
        (data_noised cfg.noise_amount x z cfg.n_samples) l0 cfg.n_samples cfg.split)
      = (t, Except.error e)) :
    interpret m cfg [x] (some l0) z st
      = ⟨⟨0, cfg.n_samples, t, false, false, st⟩,
          Except.error (InterpError.gradientComputation e)⟩ := by
  unfold interpret resolveLabel interpretCore
  simp only [List.length_singleton, List.getD_cons_zero, Option.isSome_some, hrun]
  simp

theorem data_noised_length (na : ℚ) (x : Tensor3) (z : Nat → Tensor3) (n : Nat) :
    (data_noised na x z n).length = n := by
  simp [data_noised]

/-- Claim C6: determinism under zero noise.  With noise_amount = 0 and any
n_samples >= 1, the computed standard deviation is 0, every entry of the
noised batch equals the input sample exactly (a Gaussian draw with zero std
is exactly zero), and — for a prediction function computing per-sample
gradients — the returned explanation map is exactly the gradient of the
single unperturbed input sample (the mean of n_samples identical
gradients). -/
theorem C6_zero_noise_determinism {ε : Type} (m : Model ε) (cfg : Config)
    (x : Tensor3) (l0 : Nat) (z : Nat → Tensor3) (st : Option (List Nat))
    (g : Tensor3 → Nat → Tensor3)
    (hna : cfg.noise_amount = 0) (hn : 1 ≤ cfg.n_samples)
    (hz : ∀ i, shape3 (z i) = shape3 x)
    (hg : ∀ bs ls, m.grads bs ls = Except.ok (List.zipWith g bs ls))
    (hv : cfg.visual = false) (hs : cfg.save = false) :
    sampleStd cfg.noise_amount x = 0
    ∧ data_noised cfg.noise_amount x z cfg.n_samples = List.replicate cfg.n_samples x
    ∧ (interpret m cfg [x] (some l0) z st).result = Except.ok (g x l0) := by
  have hdn : data_noised cfg.noise_amount x z cfg.n_samples
      = List.replicate cfg.n_samples x := by
    rw [hna]; exact data_noised_zero x z cfg.n_samples hz
  refine ⟨by rw [hna]; simp [sampleStd], hdn, ?_⟩
  have hrun := runCalls_pointwise m.grads g
    (data_noised cfg.noise_amount x z cfg.n_samples) l0 cfg.n_samples cfg.split hg
    (data_noised_length cfg.noise_amount x z cfg.n_samples)
  rw [interpret_single_ok m cfg x l0 z st _ _ hrun hv hs]
  rw [hdn, List.map_replicate, meanT_replicate cfg.n_samples hn (g x l0)]

theorem C6_zero_noise_determinism_witness :
    (⟨0, 2, 2, false, false⟩ : Config).noise_amount = 0
    ∧ 1 ≤ (⟨0, 2, 2, false, false⟩ : Config).n_samples
    ∧ (sampleStd 0 [[[(1 : ℚ), 2]]] = 0
      ∧ data_noised 0 [[[(1 : ℚ), 2]]] (fun _ => [[[0, 0]]]) 2
          = List.replicate 2 [[[(1 : ℚ), 2]]]
      ∧ (interpret
          (⟨fun _ => Except.ok [0],
            fun bs ls => Except.ok
              (List.zipWith (fun (s : Tensor3) (l : Nat) => smulT ((l : ℚ)) s) bs ls)⟩ :
              Model Unit)
          ⟨0, 2, 2, false, false⟩ [[[[(1 : ℚ), 2]]]] (some 3) (fun _ => [[[0, 0]]])
          none).result
        = Except.ok (smulT (((3 : Nat) : ℚ)) [[[(1 : ℚ), 2]]])) :=
  ⟨rfl, by norm_num,
    C6_zero_noise_determinism
      (⟨fun _ => Except.ok [0],
        fun bs ls => Except.ok
          (List.zipWith (fun (s : Tensor3) (l : Nat) => smulT ((l : ℚ)) s) bs ls)⟩ :
          Model Unit)
      ⟨0, 2, 2, false, false⟩ [[[(1 : ℚ), 2]]] 3 (fun _ => [[[0, 0]]]) none
      (fun (s : Tensor3) (l : Nat) => smulT ((l : ℚ)) s) rfl (by norm_num)
      (fun _ => (by decide : shape3 [[[(0 : ℚ), 0]]] = shape3 [[[(1 : ℚ), 2]]]))
      (fun _ _ => rfl) rfl rfl⟩

/-- Claim C8 as stated is false on the chunk-tagging part: the raised
error reaches the caller UNTAGGED.  Two runs identical except for the
prediction function — one failing on the first chunk (1 call issued), one
failing on the second chunk (2 calls issued) — deliver the caller the very
same error value, so the received error does not determine (is not tagged
with) the failing chunk index. -/
theorem C8_no_chunk_tag_counterexample :
    (interpret (⟨fun _ => Except.ok [0], fun _ _ => Except.error 5⟩ : Model Nat)
        ⟨0, 3, 2, false, false⟩ [[[[(0 : ℚ)]]]] (some 3) (fun _ => [[[0]]]) none).result
      = Except.error (InterpError.gradientComputation 5)
    ∧ (interpret (⟨fun _ => Except.ok [0],
          fun bs _ => if bs.length = 1 then Except.ok bs else Except.error 5⟩ : Model Nat)
        ⟨0, 3, 2, false, false⟩ [[[[(0 : ℚ)]]]] (some 3) (fun _ => [[[0]]]) none).result
      = Except.error (InterpError.gradientComputation 5)
    ∧ (interpret (⟨fun _ => Except.ok [0], fun _ _ => Except.error 5⟩ : Model Nat)
        ⟨0, 3, 2, false, false⟩ [[[[(0 : ℚ)]]]] (some 3) (fun _ => [[[0]]])
        none).gradCalls.length = 1
    ∧ (interpret (⟨fun _ => Except.ok [0],
          fun bs _ => if bs.length = 1 then Except.ok bs else Except.error 5⟩ : Model Nat)
        ⟨0, 3, 2, false, false⟩ [[[[(0 : ℚ)]]]] (some 3) (fun _ => [[[0]]])
        none).gradCalls.length = 2 := by
  refine ⟨?_, ?_, ?_, ?_⟩ <;>
    norm_num [interpret, resolveLabel, interpretCore, data_noised, sampleStd, maxT, minT,
      flatten3, listMax, listMin, addT, smulT, gradientCalls, runCallsTrace, pySlice,
      List.range_succ]

/-- Claim C8 (amended): if the external prediction function first raises on
chunk j, the evaluator performs no retry — the calls issued are exactly the
first j+1 calls, in order, each once, and nothing after the failing chunk —
and the caller receives the raised error propagated unchanged (wrapped only
as a gradient-computation failure, with NO chunk-index tag); no explanation
map is returned, no visualization and no save is performed, and the
instance attribute is left unchanged. -/
theorem C8_failure_propagation {ε : Type} (m : Model ε) (cfg : Config) (x : Tensor3)
    (l0 : Nat) (z : Nat → Tensor3) (st : Option (List Nat)) (j : Nat) (e : ε)
    (calls : List (PredCall Tensor3 Nat))
    (hcalls : calls = gradientCalls (data_noised cfg.noise_amount x z cfg.n_samples)
        l0 cfg.n_samples cfg.split)
    (hj : j < calls.length)
    (hok : ∀ i, i < j → ∃ gs, m.grads (calls.getD i ⟨[], []⟩).batch
        (calls.getD i ⟨[], []⟩).labels = Except.ok gs)
    (hfail : m.grads (calls.getD j ⟨[], []⟩).batch (calls.getD j ⟨[], []⟩).labels
        = Except.error e) :
    (interpret m cfg [x] (some l0) z st).result
        = Except.error (InterpError.gradientComputation e)
    ∧ (interpret m cfg [x] (some l0) z st).gradCalls = calls.take (j + 1)
    ∧ (interpret m cfg [x] (some l0) z st).visualized = false
    ∧ (interpret m cfg [x] (some l0) z st).saved = false
    ∧ (interpret m cfg [x] (some l0) z st).newLabels = st := by
  subst hcalls
  have hrun := runCallsTrace_firstFail m.grads e _ j hj hok hfail
  rw [interpret_single_err m cfg x l0 z st _ e hrun]
  exact ⟨rfl, rfl, rfl, rfl, rfl⟩

theorem C8_failure_propagation_witness :
    0 < (gradientCalls
        (data_noised (⟨0, 3, 2, false, false⟩ : Config).noise_amount [[[(0 : ℚ)]]]
          (fun _ => [[[0]]]) (⟨0, 3, 2, false, false⟩ : Config).n_samples)
        9 (⟨0, 3, 2, false, false⟩ : Config).n_samples
        (⟨0, 3, 2, false, false⟩ : Config).split).length
    ∧ ((interpret (⟨fun _ => Except.ok [0], fun _ _ => Except.error 5⟩ : Model Nat)
          ⟨0, 3, 2, false, false⟩ [[[[(0 : ℚ)]]]] (some 9) (fun _ => [[[0]]]) none).result
        = Except.error (InterpError.gradientComputation 5)
      ∧ (interpret (⟨fun _ => Except.ok [0], fun _ _ => Except.error 5⟩ : Model Nat)
          ⟨0, 3, 2, false, false⟩ [[[[(0 : ℚ)]]]] (some 9) (fun _ => [[[0]]])
          none).gradCalls
        = (gradientCalls
            (data_noised (⟨0, 3, 2, false, false⟩ : Config).noise_amount [[[(0 : ℚ)]]]
              (fun _ => [[[0]]]) (⟨0, 3, 2, false, false⟩ : Config).n_samples)
            9 (⟨0, 3, 2, false, false⟩ : Config).n_samples
            (⟨0, 3, 2, false, false⟩ : Config).split).take (0 + 1)
      ∧ (interpret (⟨fun _ => Except.ok [0], fun _ _ => Except.error 5⟩ : Model Nat)
          ⟨0, 3, 2, false, false⟩ [[[[(0 : ℚ)]]]] (some 9) (fun _ => [[[0]]])
          none).visualized = false
      ∧ (interpret (⟨fun _ => Except.ok [0], fun _ _ => Except.error 5⟩ : Model Nat)
          ⟨0, 3, 2, false, false⟩ [[[[(0 : ℚ)]]]] (some 9) (fun _ => [[[0]]])
          none).saved = false
      ∧ (interpret (⟨fun _ => Except.ok [0], fun _ _ => Except.error 5⟩ : Model Nat)
          ⟨0, 3, 2, false, false⟩ [[[[(0 : ℚ)]]]] (some 9) (fun _ => [[[0]]])
          none).newLabels = none) :=
  ⟨by norm_num [gradientCalls, data_noised, List.range_succ],
    C8_failure_propagation (⟨fun _ => Except.ok [0], fun _ _ => Except.error 5⟩ : Model Nat)
      ⟨0, 3, 2, false, false⟩ [[[(0 : ℚ)]]] 9 (fun _ => [[[0]]]) none 0 5 _ rfl
      (by norm_num [gradientCalls, data_noised, List.range_succ])
      (fun i hi => absurd hi (Nat.not_lt_zero i)) rfl⟩

/-- If the interpret core returns a value, the new instance attribute is
the resolved label as a one-element array. -/
theorem interpretCore_newLabels_of_ok {ε : Type} (m : Model ε) (cfg : Config)
    (x : Tensor3) (l : Nat) (z : Nat → Tensor3) (st : Option (List Nat))
    (lc : Nat) (v : Tensor3)
    (h : (interpretCore m cfg x l z st lc).result = Except.ok v) :
    (interpretCore m cfg x l z st lc).newLabels = some [l] := by
  unfold interpretCore at h ⊢
  cases hE : runCallsTrace m.grads (gradientCalls
      (data_noised cfg.noise_amount x z cfg.n_samples) l cfg.n_samples cfg.split) with
  | mk t r =>
    rw [hE] at h
    cases r with
    | error e => simp at h
    | ok gs =>
      cases hvs : (cfg.visual || cfg.save) with
      | false =>
        simp only [hvs] at h ⊢
        simp
      | true =>
        simp only [hvs] at h ⊢
        by_cases hli : leftoverIndex cfg.n_samples cfg.split = 0
        · simp [hli]
        · simp [hli] at h

/-- Claim C9 (implicit): every successful interpret call stores the
resolved label, as a one-element array, in the instance attribute `labels`,
which persists after the call returns — observable cross-call mutable
state in addition to the returned explanation map; when the caller passed
an explicit label, that very label is the one stored. -/
theorem C9_labels_attribute {ε : Type} (m : Model ε) (cfg : Config)
    (data : List Tensor3) (labels? : Option Nat) (z : Nat → Tensor3)
    (st : Option (List Nat)) (v : Tensor3)
    (h : (interpret m cfg data labels? z st).result = Except.ok v) :
    (∃ l, (interpret m cfg data labels? z st).newLabels = some [l])
    ∧ (∀ l0, labels? = some l0 →
        (interpret m cfg data labels? z st).newLabels = some [l0]) := by
  unfold interpret at h ⊢
  by_cases hlen : data.length = 1
  · rw [if_pos hlen] at h ⊢
    cases hlr : resolveLabel m data labels? with
    | error e =>
      rw [hlr] at h
      simp at h
    | ok l =>
      rw [hlr] at h
      have hnew := interpretCore_newLabels_of_ok m cfg (data.getD 0 [])
        l z st (if labels?.isSome then 0 else 1) v h
      refine ⟨⟨l, hnew⟩, ?_⟩
      intro l0 hl0
      have hl : l = l0 := by
        rw [hl0] at hlr
        simpa [resolveLabel] using hlr.symm
      subst hl
      exact hnew
  · rw [if_neg hlen] at h
    simp at h

theorem C9_labels_attribute_witness :
    ((interpret (⟨fun _ => Except.ok [0],
          fun bs ls => Except.ok (List.zipWith (fun (s : Tensor3) (_ : Nat) => s) bs ls)⟩ :
            Model Unit)
        ⟨0, 1, 1, false, false⟩ [[[[(0 : ℚ)]]]] (some 3) (fun _ => [[[0]]]) none).result
      = Except.ok [[[(0 : ℚ)]]])
    ∧ (∃ l, (interpret (⟨fun _ => Except.ok [0],
          fun bs ls => Except.ok (List.zipWith (fun (s : Tensor3) (_ : Nat) => s) bs ls)⟩ :
            Model Unit)
        ⟨0, 1, 1, false, false⟩ [[[[(0 : ℚ)]]]] (some 3) (fun _ => [[[0]]])
        none).newLabels = some [l]) :=
  ⟨by norm_num [interpret, resolveLabel, interpretCore, data_noised, sampleStd, maxT,
      minT, flatten3, listMax, listMin, addT, smulT, gradientCalls, runCallsTrace,
      pySlice, List.range_succ, leftoverIndex, meanT, sumT],
    (C9_labels_attribute (⟨fun _ => Except.ok [0],
        fun bs ls => Except.ok (List.zipWith (fun (s : Tensor3) (_ : Nat) => s) bs ls)⟩ :
          Model Unit)
      ⟨0, 1, 1, false, false⟩ [[[[(0 : ℚ)]]]] (some 3) (fun _ => [[[0]]]) none
      [[[(0 : ℚ)]]]
      (by norm_num [interpret, resolveLabel, interpretCore, data_noised, sampleStd, maxT,
        minT, flatten3, listMax, listMin, addT, smulT, gradientCalls, runCallsTrace,
        pySlice, List.range_succ, leftoverIndex, meanT, sumT])).1⟩

/-- Claim C10 (implicit): the visualization block indexes the display image
and the save path with the leftover loop variable: after the chunk loop it
equals split - 2 when split >= 2, and n_samples - 1 when split <= 1 (the
noise loop's last value).  Since exactly one image exists, the lookup is
out of bounds (fails) whenever split > 2, and whenever split <= 1 with
n_samples > 1; it succeeds exactly when the leftover index is 0. -/
theorem C10_leftover_index_vis (n split : Nat) (img : Tensor3) (hn : 1 ≤ n) :
    (1 < split → leftoverIndex n split = split - 2)
    ∧ (split ≤ 1 → leftoverIndex n split = n - 1)
    ∧ (2 < split → [img].get? (leftoverIndex n split) = none)
    ∧ (split ≤ 1 → 1 < n → [img].get? (leftoverIndex n split) = none)
    ∧ ([img].get? (leftoverIndex n split) = some img ↔ leftoverIndex n split = 0) := by
  have hget : ∀ i : Nat, ([img].get? i = some img ↔ i = 0) := by
    intro i
    cases i with
    | zero => simp
    | succ k => simp
  have hvalue1 : 1 < split → leftoverIndex n split = split - 2 := by
    intro hsplit
    unfold leftoverIndex
    rw [if_pos hsplit, getLastD_range_pos (split - 1) _ (by omega)]
    omega
  have hvalue2 : split ≤ 1 → leftoverIndex n split = n - 1 := by
    intro hsplit
    unfold leftoverIndex
    rw [if_neg (by omega), getLastD_range]
  refine ⟨hvalue1, hvalue2, ?_, ?_, hget _⟩
  · intro hsplit
    rw [hvalue1 (by omega)]
    cases hv2 : split - 2 with
    | zero => omega
    | succ k => simp
  · intro hsplit hn2
    rw [hvalue2 hsplit]
    cases hv2 : n - 1 with
    | zero => omega
    | succ k => simp

theorem C10_leftover_index_vis_witness :
    1 ≤ 3
    ∧ ((1 < 4 → leftoverIndex 3 4 = 4 - 2)
      ∧ (4 ≤ 1 → leftoverIndex 3 4 = 3 - 1)
      ∧ (2 < 4 → ([[[[(5 : ℚ)]]]] : List Tensor3).get? (leftoverIndex 3 4) = none)
      ∧ (4 ≤ 1 → 1 < 3 →
          ([[[[(5 : ℚ)]]]] : List Tensor3).get? (leftoverIndex 3 4) = none)
      ∧ (([[[[(5 : ℚ)]]]] : List Tensor3).get? (leftoverIndex 3 4) = some [[[(5 : ℚ)]]]
          ↔ leftoverIndex 3 4 = 0)) :=
  ⟨by norm_num, C10_leftover_index_vis 3 4 [[[(5 : ℚ)]]] (by norm_num)⟩

end InterpretDL
